import Mathlib

/-!
Verification of the duty-allocation core of the supervision-chart repository:
`generate_exam_dates` and `generate_schedule` from `scheduler.py`, together
with the week-keying convention of the configuration UI (`app.py`).

Dates are embedded as their Python `date.toordinal()` value, a `Nat` (day 1
is 0001-01-01 in the proleptic Gregorian calendar).  The calendar library
functions the scheduler calls (`date.weekday()`, `date.isocalendar()`) are
embedded below following the CPython `datetime` implementation.
-/

namespace Sched

/-- Python `date.weekday()`: Monday = 0 .. Sunday = 6. -/
def weekday (d : Nat) : Nat := (d + 6) % 7

/-- The `day_names` table of `scheduler.py` line 49. -/
def day_names : List String :=
  ["Monday", "Tuesday", "Wednesday", "Thursday", "Friday", "Saturday", "Sunday"]

/-- `day_names[d.weekday()]`. -/
def dayName (d : Nat) : String := day_names.getD (weekday d) ""

/-- CPython `_days_before_year`: days before January 1 of `year`. -/
def daysBeforeYear (year : Nat) : Nat :=
  let y := year - 1
  y * 365 + y / 4 - y / 100 + y / 400

/-- The Gregorian year containing ordinal `n` (the year component of CPython
`_ord2ymd`). -/
def ord2year (n : Nat) : Nat :=
  let n0 := n - 1
  let n400 := n0 / 146097
  let r400 := n0 % 146097
  let n100 := r400 / 36524
  let r100 := r400 % 36524
  let n4 := r100 / 1461
  let r4 := r100 % 1461
  let n1 := r4 / 365
  let year := n400 * 400 + 1 + n100 * 100 + n4 * 4 + n1
  if n1 = 4 ∨ n100 = 4 then year - 1 else year

/-- CPython `_isoweek1monday`: the ordinal of the Monday starting ISO week 1
of `year`. -/
def isoweek1monday (year : Nat) : Int :=
  let firstday : Int := (daysBeforeYear year : Int) + 1
  let firstweekday := (firstday + 6) % 7
  let week1monday := firstday - firstweekday
  if 3 < firstweekday then week1monday + 7 else week1monday

/-- The ISO week number `d.isocalendar()[1]` (CPython `date.isocalendar`). -/
def isoWeek (d : Nat) : Nat :=
  let year := ord2year d
  let today : Int := (d : Int)
  let week := (today - isoweek1monday year).fdiv 7
  if week < 0 then
    ((today - isoweek1monday (year - 1)).fdiv 7 + 1).toNat
  else if 52 ≤ week then
    if isoweek1monday (year + 1) ≤ today then 1 else (week + 1).toNat
  else (week + 1).toNat

/-- The ISO year `d.isocalendar()[0]` (CPython `date.isocalendar`). -/
def isoYear (d : Nat) : Nat :=
  let year := ord2year d
  let today : Int := (d : Int)
  let week := (today - isoweek1monday year).fdiv 7
  if week < 0 then year - 1
  else if 52 ≤ week then
    if isoweek1monday (year + 1) ≤ today then year + 1 else year
  else year

/-- The `while cur <= end_date` loop of `generate_exam_dates`
(`scheduler.py` lines 6-18); `fuel` bounds the number of remaining
iterations, `cur` is the loop variable. -/
def examDatesGo (end_date : Nat) (exclude_weekends : Bool) (holidays : List Nat) :
    Nat → Nat → List Nat
  | 0, _ => []
  | fuel + 1, cur =>
    if cur ≤ end_date then
      if exclude_weekends && weekday cur == 6 then
        examDatesGo end_date exclude_weekends holidays fuel (cur + 1)
      else if cur ∈ holidays then
        examDatesGo end_date exclude_weekends holidays fuel (cur + 1)
      else
        cur :: examDatesGo end_date exclude_weekends holidays fuel (cur + 1)
    else []

/-- `generate_exam_dates` (`scheduler.py` lines 5-19). -/
def generate_exam_dates (start_date end_date : Nat) (exclude_weekends : Bool)
    (holidays : List Nat) : List Nat :=
  examDatesGo end_date exclude_weekends holidays (end_date + 1 - start_date) start_date

/-- The two sessions, iterated by `generate_schedule` as the list
`["Morning", "Evening"]`. -/
inductive Session where
  | Morning
  | Evening
deriving DecidableEq, Repr

/-- `session.lower()`: the key used into the per-session configuration
dictionaries. -/
def sessionKey : Session → String
  | .Morning => "morning"
  | .Evening => "evening"

/-- `special_blocks : Dict[date, int]` as an association list. -/
abbrev SpecialBlocks := List (Nat × Int)

/-- `session_blocks : Dict[str, int]` as an association list. -/
abbrev SessionBlocks := List (String × Int)

/-- `day_blocks : Dict[str, Dict[str, int]]` as an association list. -/
abbrev DayBlocks := List (String × List (String × Int))

/-- `date_session_blocks : Dict[date, Dict[str, int]]` as an association
list. -/
abbrev DateSessionBlocks := List (Nat × List (String × Int))

/-- Blocks resolution as performed in the FIRST pass (demand sizing) of
`generate_schedule`, `scheduler.py` lines 60-76, transcribed on its own.
The `isinstance(..., dict)` guards always hold for the declared parameter
types `Dict[str, Dict[str, int]]` and are dropped. -/
def resolveBlocksPass1 (default_blocks : Int) (special_blocks : SpecialBlocks)
    (session_blocks : SessionBlocks) (day_blocks : DayBlocks)
    (date_session_blocks : DateSessionBlocks) (d : Nat) (session : Session) : Int :=
  let day_name := dayName d
  let iso_week := isoWeek d
  let blocks := default_blocks
  let week_day_key := "week_" ++ toString iso_week ++ "_" ++ day_name
  let blocks :=
    match (day_blocks.lookup week_day_key).bind (fun m => m.lookup (sessionKey session)) with
    | some v => v
    | none =>
      match (day_blocks.lookup day_name).bind (fun m => m.lookup (sessionKey session)) with
      | some v => v
      | none => blocks
  let blocks :=
    if blocks = default_blocks ∧ session_blocks ≠ [] then
      match session_blocks.lookup (sessionKey session) with
      | some v => v
      | none => blocks
    else blocks
  let blocks :=
    match special_blocks.lookup d with
    | some v => v
    | none => blocks
  match (date_session_blocks.lookup d).bind (fun m => m.lookup (sessionKey session)) with
  | some v => v
  | none => blocks

/-- Blocks resolution as performed in the SECOND pass (assignment) of
`generate_schedule`, `scheduler.py` lines 98-113, transcribed on its own
(the source duplicates the code of the first pass verbatim). -/
def resolveBlocksPass2 (default_blocks : Int) (special_blocks : SpecialBlocks)
    (session_blocks : SessionBlocks) (day_blocks : DayBlocks)
    (date_session_blocks : DateSessionBlocks) (d : Nat) (session : Session) : Int :=
  let day_name := dayName d
  let iso_week := isoWeek d
  let blocks := default_blocks
  let week_day_key := "week_" ++ toString iso_week ++ "_" ++ day_name
  let blocks :=
    match (day_blocks.lookup week_day_key).bind (fun m => m.lookup (sessionKey session)) with
    | some v => v
    | none =>
      match (day_blocks.lookup day_name).bind (fun m => m.lookup (sessionKey session)) with
      | some v => v
      | none => blocks
  let blocks :=
    if blocks = default_blocks ∧ session_blocks ≠ [] then
      match session_blocks.lookup (sessionKey session) with
      | some v => v
      | none => blocks
    else blocks
  let blocks :=
    match special_blocks.lookup d with
    | some v => v
    | none => blocks
  match (date_session_blocks.lookup d).bind (fun m => m.lookup (sessionKey session)) with
  | some v => v
  | none => blocks

/-- `extras = 1 if blocks == 1 else 2` (lines 78 and 115). -/
def extrasOf (blocks : Int) : Int := if blocks = 1 then 1 else 2

/-- `count = blocks + extras` (lines 79 and 116). -/
def countOf (blocks : Int) : Int := blocks + extrasOf blocks

/-- First pass of `generate_schedule` (lines 51-84): the total morning and
evening supervisor demand.  (The source computes these totals and then never
uses them.) -/
def demandTotals (default_blocks : Int) (sp : SpecialBlocks) (sb : SessionBlocks)
    (db : DayBlocks) (dsb : DateSessionBlocks) : List Nat → Int × Int
  | [] => (0, 0)
  | d :: ds =>
    let rest := demandTotals default_blocks sp sb db dsb ds
    (countOf (resolveBlocksPass1 default_blocks sp sb db dsb d Session.Morning) + rest.1,
     countOf (resolveBlocksPass1 default_blocks sp sb db dsb d Session.Evening) + rest.2)

/-- The `assignments` list construction of the second pass (lines 92-118):
for each date, a Morning tuple then an Evening tuple `(date, session, count)`. -/
def mkAssignments (default_blocks : Int) (sp : SpecialBlocks) (sb : SessionBlocks)
    (db : DayBlocks) (dsb : DateSessionBlocks) : List Nat → List (Nat × Session × Int)
  | [] => []
  | d :: ds =>
    (d, Session.Morning,
      countOf (resolveBlocksPass2 default_blocks sp sb db dsb d Session.Morning)) ::
    (d, Session.Evening,
      countOf (resolveBlocksPass2 default_blocks sp sb db dsb d Session.Evening)) ::
    mkAssignments default_blocks sp sb db dsb ds

/-- Strict lexicographic order on `(session count, total count)` pairs:
Python tuple `<`, as used by `min(..., key=...)` in lines 128 and 132. -/
def keyLt (a b : Nat × Nat) : Prop := a.1 < b.1 ∨ (a.1 = b.1 ∧ a.2 < b.2)

instance : DecidableRel keyLt := fun a b => by unfold keyLt; infer_instance

/-- Python `min(names, key=key)`, running-best formulation: the best so far
is replaced only by an element with a strictly smaller key, so the first
element with minimal key wins. -/
def minByKey (key : String → Nat × Nat) : List String → String → String
  | [], best => best
  | x :: xs, best => minByKey key xs (if keyLt (key x) (key best) then x else best)

/-- `min(names, key=key)` on a (non-empty) roster; `""` is the never-reached
value for an empty roster, on which Python `min` would raise. -/
def pickMin (names : List String) (key : String → Nat × Nat) : String :=
  match names with
  | [] => ""
  | x :: xs => minByKey key xs x

/-- The Morning selection key of line 128:
`(morning_count[name], morning_count[name] + evening_count[name])`. -/
def mkey (mc ec : String → Nat) (name : String) : Nat × Nat :=
  (mc name, mc name + ec name)

/-- The Evening selection key of line 132:
`(evening_count[name], morning_count[name] + evening_count[name])`. -/
def ekey (mc ec : String → Nat) (name : String) : Nat × Nat :=
  (ec name, mc name + ec name)

/-- The inner `for i in range(count)` loop (lines 124-135): picks `fuel`
supervisors for one slot, incrementing the chosen supervisor's own session
counter immediately after each pick.  Returns the assigned list and the
updated morning/evening counters.  (`range(count)` runs `max(count, 0)`
times, hence callers pass `count.toNat`.) -/
def assignSlot (names : List String) (s : Session) (mc ec : String → Nat) :
    Nat → List String × (String → Nat) × (String → Nat)
  | 0 => ([], mc, ec)
  | fuel + 1 =>
    match s with
    | .Morning =>
      let b := pickMin names (mkey mc ec)
      let r := assignSlot names s (fun x => if x = b then mc x + 1 else mc x) ec fuel
      (b :: r.1, r.2)
    | .Evening =>
      let b := pickMin names (ekey mc ec)
      let r := assignSlot names s mc (fun x => if x = b then ec x + 1 else ec x) fuel
      (b :: r.1, r.2)

/-- One row of the schedule DataFrame: `{"date": d, "session": s,
"assigned": [...]}` (line 137). -/
structure Row where
  date : Nat
  session : Session
  assigned : List String
deriving DecidableEq, Repr

/-- The outer assignment loop `for d, session, count in assignments`
(lines 122-137). -/
def assignAll (names : List String) :
    List (Nat × Session × Int) → (String → Nat) → (String → Nat) → List Row
  | [], _, _ => []
  | (d, s, c) :: rest, mc, ec =>
    let r := assignSlot names s mc ec c.toNat
    ⟨d, s, r.1⟩ :: assignAll names rest r.2.1 r.2.2

/-- The schedule rows produced by `generate_schedule` for a non-empty
roster; both counters start at 0 (lines 88-89). -/
def scheduleRows (dates : List Nat) (default_blocks : Int) (sp : SpecialBlocks)
    (sb : SessionBlocks) (db : DayBlocks) (dsb : DateSessionBlocks)
    (names : List String) : List Row :=
  assignAll names (mkAssignments default_blocks sp sb db dsb dates)
    (fun _ => 0) (fun _ => 0)

/-- `generate_schedule` (`scheduler.py` lines 21-139).  The roster `names`
is the second staff-table column; `raise ValueError("No supervisors
available")` is embedded as `Except.error`. -/
def generate_schedule (dates : List Nat) (default_blocks : Int) (sp : SpecialBlocks)
    (names : List String) (sb : SessionBlocks) (db : DayBlocks)
    (dsb : DateSessionBlocks) : Except String (List Row) :=
  if names.length = 0 then Except.error "No supervisors available"
  else Except.ok (scheduleRows dates default_blocks sp sb db dsb names)

/-- The `week_day_key = f"week_{iso_week}_{day_name}"` string of lines 63
and 100, as a function of the date. -/
def weekDayKey (d : Nat) : String :=
  "week_" ++ toString (isoWeek d) ++ "_" ++ dayName d

/-- The combined day-name layer lookup of lines 100-104: the week-scoped
entry if it has a value for the session, else the plain day-name entry. -/
def dayLayerLookup (day_blocks : DayBlocks) (d : Nat) (session : Session) : Option Int :=
  match (day_blocks.lookup (weekDayKey d)).bind (fun m => m.lookup (sessionKey session)) with
  | some v => some v
  | none => (day_blocks.lookup (dayName d)).bind (fun m => m.lookup (sessionKey session))

/-- Chronological order on ISO `(year, week)` keys, used to sort the weeks
of the exam period (`sorted(weeks_dict.items())`, `app.py` line 514). -/
def weekKeyLe (a b : Nat × Nat) : Prop := a.1 < b.1 ∨ (a.1 = b.1 ∧ a.2 ≤ b.2)

instance : DecidableRel weekKeyLe := fun a b => by unfold weekKeyLe; infer_instance

/-- Insertion into a `weekKeyLe`-sorted list. -/
def insertWeekKey (a : Nat × Nat) : List (Nat × Nat) → List (Nat × Nat)
  | [] => [a]
  | b :: l => if weekKeyLe a b then a :: b :: l else b :: insertWeekKey a l

/-- Insertion sort by `weekKeyLe`. -/
def sortWeekKeys : List (Nat × Nat) → List (Nat × Nat)
  | [] => []
  | a :: l => insertWeekKey a (sortWeekKeys l)

/-- The 1-based index `week_idx` that the configuration UI uses when it
builds a `day_blocks` key `f"week_{week_idx}_{day}"` for date `d` of the
exam period (`app.py` lines 504-514 group the exam dates by
`d.isocalendar()[:2]`, sort the week keys chronologically, and enumerate
them from 1). -/
def periodWeekIndex (exam_dates : List Nat) (d : Nat) : Nat :=
  (sortWeekKeys ((exam_dates.map (fun x => (isoYear x, isoWeek x))).dedup)).indexOf
    (isoYear d, isoWeek d) + 1

/-! ## Structural lemmas about the allocation engine -/

theorem assignSlot_length (names : List String) (s : Session) :
    ∀ (n : Nat) (mc ec : String → Nat), ((assignSlot names s mc ec n).1).length = n := by
  intro n
  induction n with
  | zero => intro mc ec; cases s <;> rfl
  | succ k ih => intro mc ec; cases s <;> simp [assignSlot, ih]

theorem assignAll_shape (names : List String) :
    ∀ (asgn : List (Nat × Session × Int)) (mc ec : String → Nat),
      (assignAll names asgn mc ec).map (fun r => (r.date, r.session, r.assigned.length))
        = asgn.map (fun t => (t.1, t.2.1, t.2.2.toNat)) := by
  intro asgn
  induction asgn with
  | nil => intro mc ec; rfl
  | cons t rest ih =>
    obtain ⟨d, s, c⟩ := t
    intro mc ec
    simp [assignAll, assignSlot_length, ih]

theorem mkAssignments_mem (default_blocks : Int) (sp : SpecialBlocks) (sb : SessionBlocks)
    (db : DayBlocks) (dsb : DateSessionBlocks) :
    ∀ (dates : List Nat) (t : Nat × Session × Int),
      t ∈ mkAssignments default_blocks sp sb db dsb dates →
      t.1 ∈ dates ∧
        t.2.2 = countOf (resolveBlocksPass2 default_blocks sp sb db dsb t.1 t.2.1) := by
  intro dates
  induction dates with
  | nil => intro t h; simp [mkAssignments] at h
  | cons d ds ih =>
    intro t h
    simp only [mkAssignments, List.mem_cons] at h
    rcases h with h | h | h
    · subst h; exact ⟨List.mem_cons_self _ _, rfl⟩
    · subst h; exact ⟨List.mem_cons_self _ _, rfl⟩
    · rcases ih t h with ⟨h1, h2⟩; exact ⟨List.mem_cons_of_mem _ h1, h2⟩

theorem scheduleRows_spec (dates : List Nat) (default_blocks : Int) (sp : SpecialBlocks)
    (sb : SessionBlocks) (db : DayBlocks) (dsb : DateSessionBlocks) (names : List String) :
    ∀ r ∈ scheduleRows dates default_blocks sp sb db dsb names,
      r.date ∈ dates ∧
        r.assigned.length
          = (countOf (resolveBlocksPass2 default_blocks sp sb db dsb r.date r.session)).toNat := by
  intro r hr
  have hmap := assignAll_shape names (mkAssignments default_blocks sp sb db dsb dates)
    (fun _ => 0) (fun _ => 0)
  have hmem : (r.date, r.session, r.assigned.length)
      ∈ (assignAll names (mkAssignments default_blocks sp sb db dsb dates)
          (fun _ => 0) (fun _ => 0)).map (fun r => (r.date, r.session, r.assigned.length)) :=
    List.mem_map_of_mem _ hr
  rw [hmap] at hmem
  rcases List.mem_map.mp hmem with ⟨t, ht, heq⟩
  obtain ⟨d, s, c⟩ := t
  rcases mkAssignments_mem default_blocks sp sb db dsb dates (d, s, c) ht with ⟨h1, h2⟩
  simp only [Prod.mk.injEq] at heq
  rcases heq with ⟨hd, hs, hl⟩
  subst hd; subst hs
  dsimp only at h1 h2
  exact ⟨h1, by rw [← hl, h2]⟩

instance : Fintype Session where
  elems := ⟨[Session.Morning, Session.Evening], by decide⟩
  complete := fun s => by cases s <;> decide

theorem mkAssignments_length (default_blocks : Int) (sp : SpecialBlocks) (sb : SessionBlocks)
    (db : DayBlocks) (dsb : DateSessionBlocks) :
    ∀ dates : List Nat,
      (mkAssignments default_blocks sp sb db dsb dates).length = 2 * dates.length := by
  intro dates
  induction dates with
  | nil => rfl
  | cons d ds ih => simp [mkAssignments, ih]; omega

theorem assignAll_length (names : List String) :
    ∀ (asgn : List (Nat × Session × Int)) (mc ec : String → Nat),
      (assignAll names asgn mc ec).length = asgn.length := by
  intro asgn
  induction asgn with
  | nil => intro mc ec; rfl
  | cons t rest ih =>
    obtain ⟨d, s, c⟩ := t
    intro mc ec
    simp [assignAll, ih]

theorem assignAll_map_date (names : List String) :
    ∀ (asgn : List (Nat × Session × Int)) (mc ec : String → Nat),
      (assignAll names asgn mc ec).map (fun r => r.date) = asgn.map (fun t => t.1) := by
  intro asgn
  induction asgn with
  | nil => intro mc ec; rfl
  | cons t rest ih =>
    obtain ⟨d, s, c⟩ := t
    intro mc ec
    simp [assignAll, ih]

theorem mkAssignments_map_fst (default_blocks : Int) (sp : SpecialBlocks) (sb : SessionBlocks)
    (db : DayBlocks) (dsb : DateSessionBlocks) :
    ∀ dates : List Nat,
      (mkAssignments default_blocks sp sb db dsb dates).map (fun t => t.1)
        = dates.flatMap (fun d => [d, d]) := by
  intro dates
  induction dates with
  | nil => rfl
  | cons d ds ih => simp [mkAssignments, ih]

theorem pairwise_le_bind_pair :
    ∀ l : List Nat, l.Pairwise (· < ·) → (l.flatMap (fun d => [d, d])).Pairwise (· ≤ ·) := by
  intro l h
  induction h with
  | nil => simp
  | @cons a rest ha _ ih =>
    simp only [List.flatMap_cons]
    refine List.Pairwise.cons ?_ (List.Pairwise.cons ?_ ih)
    · intro x hx
      rcases List.mem_cons.mp hx with hx | hx
      · omega
      · rcases List.mem_flatMap.mp hx with ⟨d, hd, hxd⟩
        have := ha d hd
        simp at hxd
        omega
    · intro x hx
      rcases List.mem_flatMap.mp hx with ⟨d, hd, hxd⟩
      have := ha d hd
      simp at hxd
      omega

theorem assignAll_getD (names : List String) (default_blocks : Int) (sp : SpecialBlocks)
    (sb : SessionBlocks) (db : DayBlocks) (dsb : DateSessionBlocks) :
    ∀ (dates : List Nat) (mc ec : String → Nat) (i : Nat), i < dates.length →
      ((assignAll names (mkAssignments default_blocks sp sb db dsb dates) mc ec).getD
          (2 * i) ⟨0, Session.Morning, []⟩).date = dates.getD i 0 ∧
      ((assignAll names (mkAssignments default_blocks sp sb db dsb dates) mc ec).getD
          (2 * i) ⟨0, Session.Morning, []⟩).session = Session.Morning ∧
      ((assignAll names (mkAssignments default_blocks sp sb db dsb dates) mc ec).getD
          (2 * i + 1) ⟨0, Session.Morning, []⟩).date = dates.getD i 0 ∧
      ((assignAll names (mkAssignments default_blocks sp sb db dsb dates) mc ec).getD
          (2 * i + 1) ⟨0, Session.Morning, []⟩).session = Session.Evening := by
  intro dates
  induction dates with
  | nil => intro mc ec i hi; simp at hi
  | cons d ds ih =>
    intro mc ec i hi
    cases i with
    | zero => exact ⟨rfl, rfl, rfl, rfl⟩
    | succ j =>
      have h2 : 2 * (j + 1) = 2 * j + 1 + 1 := by ring
      rw [h2]
      simp only [mkAssignments, assignAll, List.getD_cons_succ]
      exact ih _ _ j (by simpa using hi)

/-! ## Lemmas about the greedy pick (`min` with key) -/

theorem keyLt_trans {a b c : Nat × Nat} (h1 : keyLt a b) (h2 : keyLt b c) : keyLt a c := by
  unfold keyLt at *
  omega

theorem keyLt_of_not_keyLt_of_keyLt {a b c : Nat × Nat} (h1 : ¬ keyLt a b)
    (h2 : keyLt a c) : keyLt b c := by
  unfold keyLt at *
  omega

theorem keyLt_of_keyLt_of_not_keyLt {a b c : Nat × Nat} (h1 : keyLt a b)
    (h2 : ¬ keyLt c b) : keyLt a c := by
  unfold keyLt at *
  omega

theorem fst_le_of_not_keyLt {a b : Nat × Nat} (h : ¬ keyLt a b) : b.1 ≤ a.1 := by
  unfold keyLt at h
  omega

theorem getD_mem (l : List String) (i : Nat) (h : i < l.length) : l.getD i "" ∈ l := by
  induction l generalizing i with
  | nil => simp at h
  | cons a t ih =>
    cases i with
    | zero => exact List.mem_cons_self _ _
    | succ j => exact List.mem_cons_of_mem _ (ih j (by simpa using h))

theorem minByKey_not_lt (key : String → Nat × Nat) :
    ∀ (xs : List String) (best : String), ∀ x ∈ best :: xs,
      ¬ keyLt (key x) (key (minByKey key xs best)) := by
  intro xs
  induction xs with
  | nil =>
    intro best x hx
    rcases List.mem_cons.mp hx with hxb | hx2
    · rw [hxb]; unfold minByKey keyLt; omega
    · simp at hx2
  | cons y ys ih =>
    intro best x hx
    simp only [minByKey]
    by_cases hyb : keyLt (key y) (key best)
    · rw [if_pos hyb]
      rcases List.mem_cons.mp hx with hxb | hx2
      · intro hcon
        rw [hxb] at hcon
        exact ih y y (List.mem_cons_self _ _) (keyLt_trans hyb hcon)
      · exact ih y x hx2
    · rw [if_neg hyb]
      rcases List.mem_cons.mp hx with hxb | hx2
      · intro hcon
        rw [hxb] at hcon
        exact ih best best (List.mem_cons_self _ _) hcon
      · rcases List.mem_cons.mp hx2 with hxy | hx3
        · intro hcon
          rw [hxy] at hcon
          exact ih best best (List.mem_cons_self _ _)
            (keyLt_of_not_keyLt_of_keyLt hyb hcon)
        · exact ih best x (List.mem_cons_of_mem _ hx3)

theorem minByKey_first (key : String → Nat × Nat) :
    ∀ (xs : List String) (best : String),
      minByKey key xs best = best ∨
        ∃ i, i < xs.length ∧ xs.getD i "" = minByKey key xs best ∧
          keyLt (key (minByKey key xs best)) (key best) ∧
          ∀ j, j < i → keyLt (key (minByKey key xs best)) (key (xs.getD j "")) := by
  intro xs
  induction xs with
  | nil => intro best; exact Or.inl rfl
  | cons y ys ih =>
    intro best
    simp only [minByKey]
    by_cases hyb : keyLt (key y) (key best)
    · rw [if_pos hyb]
      rcases ih y with heq | ⟨i, hi, hgd, hlt, hall⟩
      · right
        refine ⟨0, by simp, by simpa using heq.symm, ?_, ?_⟩
        · rw [heq]; exact hyb
        · intro j hj; omega
      · right
        refine ⟨i + 1, by simpa using hi, by simpa using hgd, keyLt_trans hlt hyb, ?_⟩
        intro j hj
        cases j with
        | zero => exact hlt
        | succ j2 => simpa using hall j2 (by omega)
    · rw [if_neg hyb]
      rcases ih best with heq | ⟨i, hi, hgd, hlt, hall⟩
      · exact Or.inl heq
      · right
        refine ⟨i + 1, by simpa using hi, by simpa using hgd, hlt, ?_⟩
        intro j hj
        cases j with
        | zero => exact keyLt_of_keyLt_of_not_keyLt hlt hyb
        | succ j2 => simpa using hall j2 (by omega)

theorem pickMin_not_lt (names : List String) (key : String → Nat × Nat) :
    ∀ x ∈ names, ¬ keyLt (key x) (key (pickMin names key)) := by
  intro x hx
  cases names with
  | nil => simp at hx
  | cons a xs => exact minByKey_not_lt key xs a x hx

theorem pickMin_first (names : List String) (key : String → Nat × Nat)
    (h : names ≠ []) :
    ∃ i, i < names.length ∧ names.getD i "" = pickMin names key ∧
      ∀ j, j < i → keyLt (key (pickMin names key)) (key (names.getD j "")) := by
  cases names with
  | nil => exact absurd rfl h
  | cons a xs =>
    rcases minByKey_first key xs a with heq | ⟨i, hi, hgd, hlt, hall⟩
    · refine ⟨0, by simp, ?_, ?_⟩
      · simpa [pickMin] using heq.symm
      · intro j hj; omega
    · refine ⟨i + 1, by simpa using hi, by simpa [pickMin] using hgd, ?_⟩
      intro j hj
      cases j with
      | zero => simpa [pickMin] using hlt
      | succ j2 => simpa [pickMin] using hall j2 (by omega)

theorem pickMin_mem (names : List String) (key : String → Nat × Nat)
    (h : names ≠ []) : pickMin names key ∈ names := by
  rcases pickMin_first names key h with ⟨i, hi, hgd, -⟩
  rw [← hgd]
  exact getD_mem names i hi

theorem assignSlot_getD_morning (names : List String) :
    ∀ (n : Nat) (mc ec : String → Nat) (i : Nat), i < n →
      ((assignSlot names Session.Morning mc ec n).1).getD i ""
        = pickMin names (mkey (fun x => mc x +
            (((assignSlot names Session.Morning mc ec n).1).take i).count x) ec) := by
  intro n
  induction n with
  | zero => intro mc ec i hi; exact absurd hi (Nat.not_lt_zero i)
  | succ k ih =>
    intro mc ec i hi
    cases i with
    | zero =>
      simp only [assignSlot, List.getD_cons_zero, List.take_zero, List.count_nil,
        Nat.add_zero]
    | succ j =>
      have hj : j < k := by omega
      simp only [assignSlot, List.getD_cons_succ, List.take_succ_cons, List.count_cons]
      have hfun : (fun x => mc x +
            (((assignSlot names Session.Morning
                (fun x => if x = pickMin names (mkey mc ec) then mc x + 1 else mc x)
                ec k).1.take j).count x
              + if pickMin names (mkey mc ec) == x then 1 else 0))
          = fun x => (if x = pickMin names (mkey mc ec) then mc x + 1 else mc x) +
              ((assignSlot names Session.Morning
                (fun x => if x = pickMin names (mkey mc ec) then mc x + 1 else mc x)
                ec k).1.take j).count x := by
        funext x
        by_cases hx : x = pickMin names (mkey mc ec)
        · simp [hx]
          all_goals omega
        · simp [hx, Ne.symm hx]
      rw [hfun]
      exact ih (fun x => if x = pickMin names (mkey mc ec) then mc x + 1 else mc x) ec j hj

theorem assignSlot_getD_evening (names : List String) :
    ∀ (n : Nat) (mc ec : String → Nat) (i : Nat), i < n →
      ((assignSlot names Session.Evening mc ec n).1).getD i ""
        = pickMin names (ekey mc (fun x => ec x +
            (((assignSlot names Session.Evening mc ec n).1).take i).count x)) := by
  intro n
  induction n with
  | zero => intro mc ec i hi; exact absurd hi (Nat.not_lt_zero i)
  | succ k ih =>
    intro mc ec i hi
    cases i with
    | zero =>
      simp only [assignSlot, List.getD_cons_zero, List.take_zero, List.count_nil,
        Nat.add_zero]
    | succ j =>
      have hj : j < k := by omega
      simp only [assignSlot, List.getD_cons_succ, List.take_succ_cons, List.count_cons]
      have hfun : (fun x => ec x +
            (((assignSlot names Session.Evening mc
                (fun x => if x = pickMin names (ekey mc ec) then ec x + 1 else ec x)
                k).1.take j).count x
              + if pickMin names (ekey mc ec) == x then 1 else 0))
          = fun x => (if x = pickMin names (ekey mc ec) then ec x + 1 else ec x) +
              ((assignSlot names Session.Evening mc
                (fun x => if x = pickMin names (ekey mc ec) then ec x + 1 else ec x)
                k).1.take j).count x := by
        funext x
        by_cases hx : x = pickMin names (ekey mc ec)
        · simp [hx]
          all_goals omega
        · simp [hx, Ne.symm hx]
      rw [hfun]
      exact ih mc (fun x => if x = pickMin names (ekey mc ec) then ec x + 1 else ec x) j hj

/-- The selection key seen by the i-th pick within a slot: the session's own
counter is incremented by the picks already made in the slot (the source
increments `supervisor_morning_count[best]` / `supervisor_evening_count[best]`
immediately after each pick), paired as in lines 128/132. -/
def slotStepKey (names : List String) (s : Session) (mc ec : String → Nat)
    (n i : Nat) : String → Nat × Nat :=
  match s with
  | Session.Morning =>
    mkey (fun x => mc x +
      (((assignSlot names Session.Morning mc ec n).1).take i).count x) ec
  | Session.Evening =>
    ekey mc (fun x => ec x +
      (((assignSlot names Session.Evening mc ec n).1).take i).count x)

/-! ## Lemmas about the calendar resolver loop -/

theorem examDatesGo_mem (e : Nat) (ew : Bool) (hs : List Nat) :
    ∀ (fuel cur : Nat), e + 1 - cur ≤ fuel →
      ∀ d, d ∈ examDatesGo e ew hs fuel cur ↔
        (cur ≤ d ∧ d ≤ e ∧ ¬(ew = true ∧ weekday d = 6) ∧ d ∉ hs) := by
  intro fuel
  induction fuel with
  | zero =>
    intro cur hc d
    simp only [examDatesGo]
    refine iff_of_false (List.not_mem_nil d) ?_
    rintro ⟨h1, h2, -, -⟩
    omega
  | succ k ih =>
    intro cur hc d
    simp only [examDatesGo]
    by_cases hce : cur ≤ e
    · rw [if_pos hce]
      have hk : e + 1 - (cur + 1) ≤ k := by omega
      by_cases hsun : (ew && weekday cur == 6) = true
      · rw [if_pos hsun]
        rw [ih (cur + 1) hk d]
        simp only [Bool.and_eq_true, beq_iff_eq] at hsun
        constructor
        · rintro ⟨h1, h2, h3, h4⟩; exact ⟨by omega, h2, h3, h4⟩
        · rintro ⟨h1, h2, h3, h4⟩
          refine ⟨?_, h2, h3, h4⟩
          rcases Nat.eq_or_lt_of_le h1 with rfl | h
          · exact absurd hsun h3
          · omega
      · rw [if_neg hsun]
        by_cases hh : cur ∈ hs
        · rw [if_pos hh]
          rw [ih (cur + 1) hk d]
          constructor
          · rintro ⟨h1, h2, h3, h4⟩; exact ⟨by omega, h2, h3, h4⟩
          · rintro ⟨h1, h2, h3, h4⟩
            refine ⟨?_, h2, h3, h4⟩
            rcases Nat.eq_or_lt_of_le h1 with rfl | h
            · exact absurd hh h4
            · omega
        · rw [if_neg hh]
          simp only [List.mem_cons, ih (cur + 1) hk d]
          constructor
          · rintro (rfl | ⟨h1, h2, h3, h4⟩)
            · refine ⟨Nat.le_refl _, hce, ?_, hh⟩
              intro hcon
              apply hsun
              simp only [Bool.and_eq_true, beq_iff_eq]
              exact hcon
            · exact ⟨by omega, h2, h3, h4⟩
          · rintro ⟨h1, h2, h3, h4⟩
            rcases Nat.eq_or_lt_of_le h1 with rfl | h
            · exact Or.inl rfl
            · exact Or.inr ⟨by omega, h2, h3, h4⟩
    · rw [if_neg hce]
      refine iff_of_false (List.not_mem_nil d) ?_
      rintro ⟨h1, h2, -, -⟩
      omega

theorem examDatesGo_lower_bound (e : Nat) (ew : Bool) (hs : List Nat) :
    ∀ (fuel cur : Nat), ∀ d ∈ examDatesGo e ew hs fuel cur, cur ≤ d := by
  intro fuel
  induction fuel with
  | zero => intro cur d h; simp [examDatesGo] at h
  | succ k ih =>
    intro cur d h
    simp only [examDatesGo] at h
    by_cases hce : cur ≤ e
    · rw [if_pos hce] at h
      by_cases hsun : (ew && weekday cur == 6) = true
      · rw [if_pos hsun] at h
        have := ih (cur + 1) d h; omega
      · rw [if_neg hsun] at h
        by_cases hh : cur ∈ hs
        · rw [if_pos hh] at h
          have := ih (cur + 1) d h; omega
        · rw [if_neg hh] at h
          rcases List.mem_cons.mp h with rfl | h
          · exact Nat.le_refl _
          · have := ih (cur + 1) d h; omega
    · rw [if_neg hce] at h
      simp at h

theorem examDatesGo_pairwise (e : Nat) (ew : Bool) (hs : List Nat) :
    ∀ (fuel cur : Nat), (examDatesGo e ew hs fuel cur).Pairwise (· < ·) := by
  intro fuel
  induction fuel with
  | zero => intro cur; simp [examDatesGo]
  | succ k ih =>
    intro cur
    simp only [examDatesGo]
    by_cases hce : cur ≤ e
    · rw [if_pos hce]
      by_cases hsun : (ew && weekday cur == 6) = true
      · rw [if_pos hsun]; exact ih (cur + 1)
      · rw [if_neg hsun]
        by_cases hh : cur ∈ hs
        · rw [if_pos hh]; exact ih (cur + 1)
        · rw [if_neg hh]
          refine List.Pairwise.cons ?_ (ih (cur + 1))
          intro d hd
          have := examDatesGo_lower_bound e ew hs k (cur + 1) d hd
          omega
    · rw [if_neg hce]; simp

/-! ## Claim theorems -/

/-- C3 (confirmed): the blocks value computed in `generate_schedule`'s first
pass (demand sizing) is identical to the blocks value computed for the same
`(date, session)` in its second pass (assignment): the two verbatim-duplicated
resolution code paths are equivalent functions of the same inputs. -/
theorem c3_passes_agree (default_blocks : Int) (sp : SpecialBlocks) (sb : SessionBlocks)
    (db : DayBlocks) (dsb : DateSessionBlocks) (d : Nat) (session : Session) :
    resolveBlocksPass1 default_blocks sp sb db dsb d session
      = resolveBlocksPass2 default_blocks sp sb db dsb d session := rfl

/-- C7 (confirmed): whenever `date_session_blocks` contains an entry for the
date with a value for the session, the resolution used by `generate_schedule`
returns that value, regardless of the global default, per-session default,
day-name or week-scoped overrides, and per-date `special_blocks` override. -/
theorem c7_date_session_override_wins (default_blocks : Int) (sp : SpecialBlocks)
    (sb : SessionBlocks) (db : DayBlocks) (dsb : DateSessionBlocks) (d : Nat)
    (session : Session) (v : Int)
    (h : (dsb.lookup d).bind (fun m => m.lookup (sessionKey session)) = some v) :
    resolveBlocksPass2 default_blocks sp sb db dsb d session = v := by
  simp only [resolveBlocksPass2, h]

/-- Witness for C7: on 2024-01-01 (ordinal 738886) a per-date-per-session
override of 9 beats the default (2), a special-blocks override (7), a
session default (5) and a day-name override (3). -/
theorem c7_witness :
    resolveBlocksPass2 2 [(738886, 7)] [("morning", 5)] [("Monday", [("morning", 3)])]
      [(738886, [("morning", 9)])] 738886 Session.Morning = 9 :=
  c7_date_session_override_wins 2 [(738886, 7)] [("morning", 5)]
    [("Monday", [("morning", 3)])] [(738886, [("morning", 9)])] 738886 Session.Morning 9
    (by decide)

/-- C8 (confirmed): with a roster of zero supervisors, `generate_schedule`
raises immediately (`ValueError("No supervisors available")`, the
`EmptyRosterError` of the spec) and produces zero schedule entries, for every
date sequence and configuration. -/
theorem c8_empty_roster_error (dates : List Nat) (default_blocks : Int)
    (sp : SpecialBlocks) (sb : SessionBlocks) (db : DayBlocks) (dsb : DateSessionBlocks)
    (names : List String) (h : names = []) :
    generate_schedule dates default_blocks sp names sb db dsb
      = Except.error "No supervisors available" := by
  subst h; rfl

/-- Witness for C8: the empty roster on a valid one-day range. -/
theorem c8_witness :
    generate_schedule [738886] 2 [] [] [] [] [] = Except.error "No supervisors available" :=
  c8_empty_roster_error [738886] 2 [] [] [] [] [] rfl

/-- C1 (counterexample): the day-name layer does NOT always take priority
over the per-session default.  On Monday 2024-01-01 (ordinal 738886) with
`default_blocks = 2`, a plain day-name override `Monday -> morning 2` (equal
to the default) and a session default `morning -> 5`, no special or
per-date-per-session override, the code resolves blocks to 5 (the session
default), not to the day-name override value 2 as the claim states: the
source guards the session layer only by `blocks == default_blocks`. -/
theorem c1_counterexample :
    resolveBlocksPass2 2 [] [("morning", 5)] [("Monday", [("morning", 2)])] []
        738886 Session.Morning ≠ 2 ∧
      resolveBlocksPass2 2 [] [("morning", 5)] [("Monday", [("morning", 2)])] []
        738886 Session.Morning = 5 := by
  constructor
  · decide
  · decide

/-- C1 (amended, confirmed): when a day-name override (week-scoped taking
priority over plain) defines a blocks value for the session, no per-date
(`special_blocks`) or per-date-per-session override applies, and the
day-name value DIFFERS from `default_blocks`, resolution returns the
day-name value even when `session_blocks` also defines a value for that
session; when the day-name value equals `default_blocks` the per-session
default is applied instead (see `c1_counterexample`). -/
theorem c1_amended_day_over_session (default_blocks : Int) (sp : SpecialBlocks)
    (sb : SessionBlocks) (db : DayBlocks) (dsb : DateSessionBlocks) (d : Nat)
    (session : Session) (v : Int)
    (hday : dayLayerLookup db d session = some v)
    (hsp : sp.lookup d = none)
    (hdsb : (dsb.lookup d).bind (fun m => m.lookup (sessionKey session)) = none)
    (hv : v ≠ default_blocks) :
    resolveBlocksPass2 default_blocks sp sb db dsb d session = v := by
  simp only [dayLayerLookup, weekDayKey] at hday
  simp only [resolveBlocksPass2, hsp, hdsb]
  cases hwk : (db.lookup ("week_" ++ toString (isoWeek d) ++ "_" ++ dayName d)).bind
      (fun m => m.lookup (sessionKey session)) with
  | some w =>
    rw [hwk] at hday
    injection hday with hday
    subst hday
    simp [hv]
  | none =>
    rw [hwk] at hday
    dsimp only at hday ⊢
    rw [hday]
    simp [hv]

/-- Witness for C1 (amended): on Monday 2024-01-01 a day-name override of 3
(different from the default 2) beats a session default of 5. -/
theorem c1_amended_witness :
    resolveBlocksPass2 2 [] [("morning", 5)] [("Monday", [("morning", 3)])] []
      738886 Session.Morning = 3 :=
  c1_amended_day_over_session 2 [] [("morning", 5)] [("Monday", [("morning", 3)])] []
    738886 Session.Morning 3 (by decide) (by decide) (by decide) (by decide)

/-- C2 (counterexample): a configuration that resolves to a non-positive
blocks value is NOT reported as an error and schedule entries ARE produced:
with `default_blocks = 0` (so every slot resolves to 0) and roster `["A"]`,
`generate_schedule` silently computes `count = 0 + 2` and returns a
two-entry schedule instead of a configuration error. -/
theorem c2_counterexample :
    generate_schedule [738886] 0 [] ["A"] [] [] []
      = Except.ok [⟨738886, Session.Morning, ["A", "A"]⟩,
          ⟨738886, Session.Evening, ["A", "A"]⟩] := rfl

/-- C2 (amended, confirmed): `generate_schedule` performs no validation of
resolved blocks values.  For every configuration and non-empty roster it
returns a schedule (never a configuration error), and each entry uses the
malformed value silently: the assigned list has `max(blocks + extras, 0)`
entries even when the resolved blocks value is zero or negative. -/
theorem c2_amended_no_validation (dates : List Nat) (default_blocks : Int)
    (sp : SpecialBlocks) (sb : SessionBlocks) (db : DayBlocks) (dsb : DateSessionBlocks)
    (names : List String) (h : names ≠ []) :
    generate_schedule dates default_blocks sp names sb db dsb
        = Except.ok (scheduleRows dates default_blocks sp sb db dsb names) ∧
      ∀ r ∈ scheduleRows dates default_blocks sp sb db dsb names,
        r.assigned.length
          = (countOf (resolveBlocksPass2 default_blocks sp sb db dsb r.date r.session)).toNat := by
  constructor
  · simp only [generate_schedule, List.length_eq_zero]
    rw [if_neg h]
  · intro r hr
    exact (scheduleRows_spec dates default_blocks sp sb db dsb names r hr).2

/-- Witness for C2 (amended): the zero-blocks configuration of
`c2_counterexample` goes through without error and its Morning entry has
`(0 + 2).toNat = 2` assigned supervisors. -/
theorem c2_amended_witness :
    generate_schedule [738886] 0 [] ["A"] [] [] []
        = Except.ok (scheduleRows [738886] 0 [] [] [] [] ["A"]) ∧
      ∀ r ∈ scheduleRows [738886] 0 [] [] [] [] ["A"],
        r.assigned.length
          = (countOf (resolveBlocksPass2 0 [] [] [] [] r.date r.session)).toNat :=
  c2_amended_no_validation [738886] 0 [] [] [] [] ["A"] (by decide)

/-- C4 (confirmed): for every schedule entry produced by `generate_schedule`
with a non-empty roster (and a configuration whose resolved blocks values
are positive integers, the input contract of the spec), the length of the
assigned supervisor list equals the resolved blocks value plus extras, where
extras = 1 if blocks = 1 and extras = 2 otherwise. -/
theorem c4_slot_size (dates : List Nat) (default_blocks : Int) (sp : SpecialBlocks)
    (sb : SessionBlocks) (db : DayBlocks) (dsb : DateSessionBlocks) (names : List String)
    (hne : names ≠ [])
    (hpos : ∀ d ∈ dates, ∀ s : Session,
      1 ≤ resolveBlocksPass2 default_blocks sp sb db dsb d s) :
    generate_schedule dates default_blocks sp names sb db dsb
        = Except.ok (scheduleRows dates default_blocks sp sb db dsb names) ∧
      ∀ r ∈ scheduleRows dates default_blocks sp sb db dsb names,
        (r.assigned.length : Int)
          = resolveBlocksPass2 default_blocks sp sb db dsb r.date r.session
            + extrasOf (resolveBlocksPass2 default_blocks sp sb db dsb r.date r.session) := by
  constructor
  · simp only [generate_schedule, List.length_eq_zero]
    rw [if_neg hne]
  · intro r hr
    rcases scheduleRows_spec dates default_blocks sp sb db dsb names r hr with ⟨hd, hl⟩
    have hb := hpos r.date hd r.session
    have hc : (0 : Int)
        ≤ countOf (resolveBlocksPass2 default_blocks sp sb db dsb r.date r.session) := by
      unfold countOf extrasOf
      split <;> omega
    rw [hl, Int.toNat_of_nonneg hc]
    unfold countOf
    rfl

/-- Witness for C4: the all-defaults one-day configuration with
`default_blocks = 2` and roster `["A", "B", "C"]`; every slot resolves to
2 blocks, hence 4 assigned supervisors. -/
theorem c4_witness :
    generate_schedule [738886] 2 [] ["A", "B", "C"] [] [] []
        = Except.ok (scheduleRows [738886] 2 [] [] [] [] ["A", "B", "C"]) ∧
      ∀ r ∈ scheduleRows [738886] 2 [] [] [] [] ["A", "B", "C"],
        (r.assigned.length : Int)
          = resolveBlocksPass2 2 [] [] [] [] r.date r.session
            + extrasOf (resolveBlocksPass2 2 [] [] [] [] r.date r.session) :=
  c4_slot_size [738886] 2 [] [] [] [] ["A", "B", "C"] (by decide) (by decide)

/-- C9 (confirmed): for every non-empty roster and date sequence the
schedule has exactly `2 * |dates|` entries; entry `2i` is the Morning entry
and entry `2i + 1` the Evening entry for the i-th date, so entries follow
the date sequence (chronological when the input is) with Morning preceding
Evening; an empty date sequence yields a valid empty schedule, not an
error. -/
theorem c9_schedule_shape (dates : List Nat) (default_blocks : Int) (sp : SpecialBlocks)
    (sb : SessionBlocks) (db : DayBlocks) (dsb : DateSessionBlocks) (names : List String)
    (hne : names ≠ []) :
    generate_schedule dates default_blocks sp names sb db dsb
        = Except.ok (scheduleRows dates default_blocks sp sb db dsb names) ∧
      (scheduleRows dates default_blocks sp sb db dsb names).length = 2 * dates.length ∧
      (∀ i, i < dates.length →
        ((scheduleRows dates default_blocks sp sb db dsb names).getD (2 * i)
            ⟨0, Session.Morning, []⟩).date = dates.getD i 0 ∧
        ((scheduleRows dates default_blocks sp sb db dsb names).getD (2 * i)
            ⟨0, Session.Morning, []⟩).session = Session.Morning ∧
        ((scheduleRows dates default_blocks sp sb db dsb names).getD (2 * i + 1)
            ⟨0, Session.Morning, []⟩).date = dates.getD i 0 ∧
        ((scheduleRows dates default_blocks sp sb db dsb names).getD (2 * i + 1)
            ⟨0, Session.Morning, []⟩).session = Session.Evening) ∧
      (dates.Pairwise (· < ·) →
        ((scheduleRows dates default_blocks sp sb db dsb names).map
            (fun r => r.date)).Pairwise (· ≤ ·)) := by
  refine ⟨?_, ?_, ?_, ?_⟩
  · simp only [generate_schedule, List.length_eq_zero]
    rw [if_neg hne]
  · unfold scheduleRows
    rw [assignAll_length, mkAssignments_length]
  · intro i hi
    exact assignAll_getD names default_blocks sp sb db dsb dates _ _ i hi
  · intro hsorted
    unfold scheduleRows
    rw [assignAll_map_date, mkAssignments_map_fst]
    exact pairwise_le_bind_pair dates hsorted

/-- Witness for C9: two days, roster `["A"]`: four entries in
Morning/Evening order per date. -/
theorem c9_witness :
    generate_schedule [738886, 738887] 2 [] ["A"] [] [] []
        = Except.ok (scheduleRows [738886, 738887] 2 [] [] [] [] ["A"]) ∧
      (scheduleRows [738886, 738887] 2 [] [] [] [] ["A"]).length = 2 * [738886, 738887].length ∧
      (∀ i, i < [738886, 738887].length →
        ((scheduleRows [738886, 738887] 2 [] [] [] [] ["A"]).getD (2 * i)
            ⟨0, Session.Morning, []⟩).date = [738886, 738887].getD i 0 ∧
        ((scheduleRows [738886, 738887] 2 [] [] [] [] ["A"]).getD (2 * i)
            ⟨0, Session.Morning, []⟩).session = Session.Morning ∧
        ((scheduleRows [738886, 738887] 2 [] [] [] [] ["A"]).getD (2 * i + 1)
            ⟨0, Session.Morning, []⟩).date = [738886, 738887].getD i 0 ∧
        ((scheduleRows [738886, 738887] 2 [] [] [] [] ["A"]).getD (2 * i + 1)
            ⟨0, Session.Morning, []⟩).session = Session.Evening) ∧
      ([738886, 738887].Pairwise (· < ·) →
        ((scheduleRows [738886, 738887] 2 [] [] [] [] ["A"]).map
            (fun r => r.date)).Pairwise (· ≤ ·)) :=
  c9_schedule_shape [738886, 738887] 2 [] [] [] [] ["A"] (by decide)

/-- C5 (confirmed): at every single pick within a slot of the assignment
loop, the chosen supervisor is `min(names, key=...)` evaluated on the
counters that already include the increments of the earlier picks of the
same slot (the session counter is incremented before the next pick); the
chosen supervisor's own session count at that instant is ≤ that of every
roster member (first component of the key), and the choice is the
first-listed roster member among those minimising the
(session count, total count) pair. -/
theorem c5_greedy_local_optimality (names : List String) (s : Session)
    (mc ec : String → Nat) (n i : Nat) (hne : names ≠ []) (hi : i < n) :
    ((assignSlot names s mc ec n).1).getD i ""
        = pickMin names (slotStepKey names s mc ec n i) ∧
      (∀ x ∈ names,
        (slotStepKey names s mc ec n i (((assignSlot names s mc ec n).1).getD i "")).1
          ≤ (slotStepKey names s mc ec n i x).1) ∧
      (∃ idx, idx < names.length ∧
        names.getD idx "" = ((assignSlot names s mc ec n).1).getD i "" ∧
        ∀ j, j < idx →
          keyLt
            (slotStepKey names s mc ec n i (((assignSlot names s mc ec n).1).getD i ""))
            (slotStepKey names s mc ec n i (names.getD j ""))) := by
  have hpick : ((assignSlot names s mc ec n).1).getD i ""
      = pickMin names (slotStepKey names s mc ec n i) := by
    cases s
    · exact assignSlot_getD_morning names n mc ec i hi
    · exact assignSlot_getD_evening names n mc ec i hi
  refine ⟨hpick, ?_, ?_⟩
  · intro x hx
    rw [hpick]
    exact fst_le_of_not_keyLt (pickMin_not_lt names (slotStepKey names s mc ec n i) x hx)
  · rw [hpick]
    exact pickMin_first names (slotStepKey names s mc ec n i) hne

/-- Witness for C5: roster `["A", "B"]`, Morning slot of 3 picks, second
pick (index 1): the pick is computed from the state in which the first pick
has already been counted. -/
theorem c5_witness :
    ((assignSlot ["A", "B"] Session.Morning (fun _ => 0) (fun _ => 0) 3).1).getD 1 ""
        = pickMin ["A", "B"]
            (slotStepKey ["A", "B"] Session.Morning (fun _ => 0) (fun _ => 0) 3 1) ∧
      (∀ x ∈ ["A", "B"],
        (slotStepKey ["A", "B"] Session.Morning (fun _ => 0) (fun _ => 0) 3 1
            (((assignSlot ["A", "B"] Session.Morning
              (fun _ => 0) (fun _ => 0) 3).1).getD 1 "")).1
          ≤ (slotStepKey ["A", "B"] Session.Morning (fun _ => 0) (fun _ => 0) 3 1 x).1) ∧
      (∃ idx, idx < (["A", "B"] : List String).length ∧
        (["A", "B"] : List String).getD idx ""
            = ((assignSlot ["A", "B"] Session.Morning
              (fun _ => 0) (fun _ => 0) 3).1).getD 1 "" ∧
        ∀ j, j < idx →
          keyLt
            (slotStepKey ["A", "B"] Session.Morning (fun _ => 0) (fun _ => 0) 3 1
              (((assignSlot ["A", "B"] Session.Morning
                (fun _ => 0) (fun _ => 0) 3).1).getD 1 ""))
            (slotStepKey ["A", "B"] Session.Morning (fun _ => 0) (fun _ => 0) 3 1
              ((["A", "B"] : List String).getD j ""))) :=
  c5_greedy_local_optimality ["A", "B"] Session.Morning (fun _ => 0) (fun _ => 0) 3 1
    (by decide) (by decide)

/-- C6 (confirmed): `generate_exam_dates` returns exactly the dates `d` with
`start ≤ d ≤ end` that are excluded neither by being a Sunday while the
skip-Sundays flag is set nor by membership in the holiday set, in strictly
increasing order with no duplicates; when start is after end the result is
empty.  (The embedded function is total, so the source never fails.) -/
theorem c6_exam_dates (start_date end_date : Nat) (ew : Bool) (hs : List Nat) :
    (∀ d, d ∈ generate_exam_dates start_date end_date ew hs ↔
        (start_date ≤ d ∧ d ≤ end_date ∧ ¬(ew = true ∧ weekday d = 6) ∧ d ∉ hs)) ∧
      (generate_exam_dates start_date end_date ew hs).Pairwise (· < ·) ∧
      (generate_exam_dates start_date end_date ew hs).Nodup ∧
      (end_date < start_date → generate_exam_dates start_date end_date ew hs = []) := by
  have hpw := examDatesGo_pairwise end_date ew hs (end_date + 1 - start_date) start_date
  refine ⟨?_, hpw, ?_, ?_⟩
  · intro d
    exact examDatesGo_mem end_date ew hs (end_date + 1 - start_date) start_date
      (Nat.le_refl _) d
  · exact hpw.imp (fun h => Nat.ne_of_lt h)
  · intro hlt
    unfold generate_exam_dates
    have h0 : end_date + 1 - start_date = 0 := by omega
    rw [h0]
    rfl

/-- Witness for C6, at the spec's concrete scenario: 2024-01-01 to
2024-01-07 (ordinals 738886-738892) with Sundays skipped and no holidays. -/
theorem c6_witness :
    (∀ d, d ∈ generate_exam_dates 738886 738892 true [] ↔
        (738886 ≤ d ∧ d ≤ 738892 ∧ ¬(true = true ∧ weekday d = 6) ∧ d ∉ ([] : List Nat))) ∧
      (generate_exam_dates 738886 738892 true []).Pairwise (· < ·) ∧
      (generate_exam_dates 738886 738892 true []).Nodup ∧
      (738892 < 738886 → generate_exam_dates 738886 738892 true [] = []) :=
  c6_exam_dates 738886 738892 true []

/-- C10 (confirmed): the week-scoped day override is looked up under the key
`week_{W}_{DayName}` where `W` is the date's ISO calendar week number
(`d.isocalendar()[1]`), and a matching entry wins (general first conjunct).
For the exam period 2024-01-15 to 2024-01-20 (ordinals 738900-738905) the
configuration UI's within-period week index is 1 while the ISO week of
2024-01-15 is 3, so the UI-constructed key `week_1_Monday` does NOT match
(blocks stay at the default 2) whereas `week_3_Monday` does (concrete
conjuncts). -/
theorem c10_iso_week_key (db : DayBlocks) (default_blocks : Int) (d : Nat)
    (s : Session) (v : Int)
    (h : (db.lookup (weekDayKey d)).bind (fun m => m.lookup (sessionKey s)) = some v) :
    resolveBlocksPass2 default_blocks [] [] db [] d s = v ∧
      weekDayKey 738900 = "week_3_Monday" ∧
      isoWeek 738900 = 3 ∧
      periodWeekIndex (generate_exam_dates 738900 738905 true []) 738900 = 1 ∧
      resolveBlocksPass2 2 [] [] [("week_1_Monday", [("morning", 5)])] []
        738900 Session.Morning = 2 ∧
      resolveBlocksPass2 2 [] [] [("week_3_Monday", [("morning", 5)])] []
        738900 Session.Morning = 5 := by
  refine ⟨?_, by decide, by decide, by decide, by decide, by decide⟩
  simp only [weekDayKey] at h
  simp only [resolveBlocksPass2, h]
  simp [List.lookup]

/-- Witness for C10: the ISO-keyed entry `week_3_Monday` with value 5 is
found and wins on 2024-01-15. -/
theorem c10_witness :
    resolveBlocksPass2 2 [] [] [("week_3_Monday", [("morning", 5)])] []
        738900 Session.Morning = 5 ∧
      weekDayKey 738900 = "week_3_Monday" ∧
      isoWeek 738900 = 3 ∧
      periodWeekIndex (generate_exam_dates 738900 738905 true []) 738900 = 1 ∧
      resolveBlocksPass2 2 [] [] [("week_1_Monday", [("morning", 5)])] []
        738900 Session.Morning = 2 ∧
      resolveBlocksPass2 2 [] [] [("week_3_Monday", [("morning", 5)])] []
        738900 Session.Morning = 5 :=
  c10_iso_week_key [("week_3_Monday", [("morning", 5)])] 2 738900 Session.Morning 5
    (by decide)

end Sched
